import Mathlib

/-!
Verification development for the `security_monitoring_agent` repository.

The detection core is embedded shallowly:

* Python scalar values that flow through the aggregated records are modelled
  by the inductive type `Val` (integers, strings, `None`); a missing dict key
  is `Option.none` at the field level, which `dict.get` collapses to
  `Val.vnone`.
* Numeric arithmetic of the heuristic detector is modelled over exact
  rationals (the counters the pipeline feeds it are Python ints, which are
  exact); the z-score comparison against `n_sigma`, which the Python code
  performs after a real square root, is embedded in the square-free
  equivalent form and proved equivalent to the real-valued formula with
  `Real.sqrt` (lemma `zExceeds_iff_real`).
* Fallible Python code (an uncaught `TypeError`/`ValueError`) is embedded
  with `Option`: `none` means the call raises.

The embedded functions follow `src/detection/rule_engine.py`,
`src/detection/anomaly_detector.py` (the pure-Python fallback path, i.e. the
spec's `HeuristicStrategy`, active when numpy/sklearn are unavailable) and the
aggregation loop shared by `src/main.py` and `src/detection/threat_agent.py`.
-/

/-- A Python scalar value as it appears in the record dicts of the pipeline:
an integer, a string, or `None`. -/
inductive Val where
  | vint : Int → Val
  | vstr : String → Val
  | vnone : Val
  deriving DecidableEq, Repr

/-- `dict.get(key)`: a missing field (`Option.none`) reads as Python `None`. -/
def getv (f : Option Val) : Val :=
  f.getD Val.vnone

/-- Python `int(s)` on a string, modelled for the strings the pipeline can
meet: an optional sign followed by decimal digits parses, anything else
raises (`none`). -/
def pyIntOfDigits (cs : List Char) : Option Nat :=
  if cs ≠ [] ∧ cs.all Char.isDigit then
    some (cs.foldl (fun n c => 10 * n + (c.toNat - '0'.toNat)) 0)
  else
    none

/-- Python `int(s)` for a string `s` (sign handling). -/
def pyIntOfString (s : String) : Option Int :=
  match s.data with
  | '-' :: rest => (pyIntOfDigits rest).map (fun n => -(n : Int))
  | '+' :: rest => (pyIntOfDigits rest).map (fun n => (n : Int))
  | cs => (pyIntOfDigits cs).map (fun n => (n : Int))

/-- The coercion block of `RuleEngine.check_rules`
(`src/detection/rule_engine.py`, lines 10-17): `None` and the literal string
`"unknown"` become `0`; otherwise `int(...)` is attempted and a
`TypeError`/`ValueError` silently yields `0`. -/
def coerceFailedLogins (v : Val) : Int :=
  match v with
  | Val.vnone => 0
  | Val.vstr s => if s = "unknown" then 0 else (pyIntOfString s).getD 0
  | Val.vint n => n

/-- An aggregated per-actor record as the detection stage receives it: the
dict `{ip, failed_logins, requests}`, each field possibly missing or holding
an arbitrary scalar. -/
structure AggDict where
  ip : Option Val
  failed_logins : Option Val
  requests : Option Val
  deriving DecidableEq, Repr

/-- A rule alert `{type, ip, failed_logins}` as built by
`RuleEngine.check_rules`. -/
structure RuleAlert where
  type : String
  ip : Val
  failed_logins : Int
  deriving DecidableEq, Repr

/-- The alert a given row contributes, if any: the body of the `for` loop of
`RuleEngine.check_rules` for one row. -/
def ruleAlertOf (row : AggDict) : Option RuleAlert :=
  let fl := coerceFailedLogins (getv row.failed_logins)
  if fl > 5 then
    some { type := "Brute Force", ip := getv row.ip, failed_logins := fl }
  else
    none

/-- `RuleEngine.check_rules` (`src/detection/rule_engine.py`): iterate the
rows in order, append one brute-force alert per row whose coerced
`failed_logins` exceeds 5. -/
def check_rules : List AggDict → List RuleAlert
  | [] => []
  | row :: rest =>
    match ruleAlertOf row with
    | some a => a :: check_rules rest
    | none => check_rules rest

/-! ## Heuristic anomaly detector

Embedding of the pure-Python fallback path of
`src/detection/anomaly_detector.py` (`_HAS_NUMPY = False`,
`_HAS_SKLEARN = False`): feature rows are pairs
`(failed_logins, requests)` where a component is `none` when the stored
Python value is `None`. -/

/-- One feature row `[failed_logins, requests]` as built inside
`AnomalyDetector.detect`; `none` is a Python `None` value. -/
abbrev FeatRow := Option ℚ × Option ℚ

/-- `v if v is not None else 0`: the coercion `_heuristic_mask` applies to a
column value before computing the mean and the population variance. -/
def optVal (v : Option ℚ) : ℚ :=
  v.getD 0

/-- The per-column statistics loop of `_heuristic_mask`
(`src/detection/anomaly_detector.py`, lines 112-122): population mean and
population variance (division by `n`) of the column with `None` coerced to
`0`.  The Python code stores `std = sqrt(var)` (substituting `1e-8` when it
is zero); the embedding keeps the variance and performs the square root at
the comparison site (`zExceeds`). -/
def colStats (c : List (Option ℚ)) : ℚ × ℚ :=
  let vals := c.map optVal
  let n : ℚ := (vals.length : ℚ)
  let mean := vals.sum / n
  let var := (vals.map (fun v => (v - mean) ^ 2)).sum / n
  (mean, var)

/-- The comparison `abs((v - mean) / std) > n_sigma` of `_heuristic_mask`
(line 130-131), where `std = sqrt(var)` with `1e-8` substituted when the
standard deviation is zero.  Embedded without the square root: for
`var = 0` the division by the literal epsilon is exact rational arithmetic;
for `var > 0` the strict comparison against a non-negative `n_sigma` is
equivalent to comparing squares, and against a negative `n_sigma` it always
holds.  Lemma `zExceeds_iff_real` proves this equal to the real-valued
formula with `Real.sqrt`. -/
def zExceeds (v mean var nsig : ℚ) : Bool :=
  if var = 0 then
    decide (|v - mean| / (1e-8 : ℚ) > nsig)
  else if nsig < 0 then
    true
  else
    decide ((v - mean) ^ 2 > nsig ^ 2 * var)

/-- One feature's contribution to the row check of `_heuristic_mask`
(lines 127-133): a `None` value is skipped (`continue`), otherwise the
z-score is compared. -/
def featExceeds (v : Option ℚ) (stats : ℚ × ℚ) (nsig : ℚ) : Bool :=
  match v with
  | none => false
  | some x => zExceeds x stats.1 stats.2 nsig

/-- `AnomalyDetector._heuristic_mask` on the pure-Python path: empty input
yields an empty mask; otherwise compute the two column statistics
(`cols = zip(*rows)`) and mark a row when any (non-`None`) feature's z-score
strictly exceeds `n_sigma` (the early-`break` OR of the source).  The
source's generic per-index loop is specialized to the two-feature rows
`detect` always builds. -/
def heuristic_mask (nsig : ℚ) (rows : List FeatRow) : List Bool :=
  if rows = [] then []
  else
    let s1 := colStats (rows.map Prod.fst)
    let s2 := colStats (rows.map Prod.snd)
    rows.map (fun r => featExceeds r.1 s1 nsig || featExceeds r.2 s2 nsig)

/-- Feature extraction for one record in `AnomalyDetector.detect`
(line 48-50): `r.get("failed_logins", 0)` — a missing key defaults to `0`, a
stored `None` stays `None`, an int is its value, and a string makes the
later arithmetic of `_heuristic_mask` raise a `TypeError` (`none` result). -/
def getFeat : Option Val → Option (Option ℚ)
  | none => some (some 0)
  | some Val.vnone => some none
  | some (Val.vint n) => some (some (n : ℚ))
  | some (Val.vstr _) => none

/-- The feature matrix built by `AnomalyDetector.detect` from a list of
record dicts, in input order; `none` when some record holds a string in a
feature field (which the heuristic's arithmetic would raise on). -/
def featuresOf : List AggDict → Option (List FeatRow)
  | [] => some []
  | r :: rs =>
    (getFeat r.failed_logins).bind fun a =>
      (getFeat r.requests).bind fun b =>
        (featuresOf rs).map fun rest => (a, b) :: rest

/-- The feature row of one record when extraction succeeds (both fields
numeric, `None` or missing); positionally, row `i` of a successful
`featuresOf` is `extractFeat` of record `i`. -/
def extractFeat (r : AggDict) : FeatRow :=
  ((getFeat r.failed_logins).getD none, (getFeat r.requests).getD none)

/-- The result-building loop of `AnomalyDetector.detect` (lines 74-83):
keep the original records at the indices where the mask is true, in order. -/
def maskSelect (records : List AggDict) (mask : List Bool) : List AggDict :=
  (records.zip mask).filterMap (fun rb => if rb.2 then some rb.1 else none)

/-- `AnomalyDetector.detect` with the model strategy abstracted: `model` is
`some m` when sklearn is available, and `m features = none` models
`fit`/`predict` raising, in which case the `except` branch recomputes the
mask with `_heuristic_mask` on the same features (lines 52-63).  The overall
`none` result models an uncaught exception while building the feature
matrix. -/
def detectWith (model : Option (List FeatRow → Option (List Bool)))
    (nsig : ℚ) (records : List AggDict) : Option (List AggDict) :=
  match featuresOf records with
  | none => none
  | some features =>
    let mask :=
      match model with
      | some m =>
        match m features with
        | some mk => mk
        | none => heuristic_mask nsig features
      | none => heuristic_mask nsig features
    some (maskSelect records mask)

/-- `AnomalyDetector.detect` in the environment without sklearn: the
heuristic strategy computes the mask. -/
def detect (nsig : ℚ) (records : List AggDict) : Option (List AggDict) :=
  detectWith none nsig records

/-- The constructed state of `AnomalyDetector.__init__`
(`src/detection/anomaly_detector.py`, lines 25-30): both parameters are
stored as attributes. -/
structure AnomalyDetector where
  contamination : ℚ
  n_sigma : ℚ
  deriving DecidableEq, Repr

/-- `AnomalyDetector.__init__`: assigns the two attributes; it contains no
validation and no other branch that can raise on the heuristic path. -/
def AnomalyDetector.init (contamination n_sigma : ℚ) : AnomalyDetector :=
  { contamination := contamination, n_sigma := n_sigma }

/-- Running a constructed detector: `detect` reads `self.n_sigma`. -/
def AnomalyDetector.run (d : AnomalyDetector) (records : List AggDict) :
    Option (List AggDict) :=
  detect d.n_sigma records

/-! ## Aggregator

Embedding of the aggregation loop shared verbatim by `src/main.py`
(lines 55-61) and `src/detection/threat_agent.py` (lines 66-72). -/

/-- Python truthiness of the scalar values: `None`, `0` and `""` are
falsy. -/
def truthy : Val → Bool
  | Val.vnone => false
  | Val.vint n => n != 0
  | Val.vstr s => s != ""

/-- Python `a or b` on scalar values. -/
def pyOr (a b : Val) : Val :=
  if truthy a then a else b

/-- A raw event record as the aggregation loop reads it: the three fields it
touches, each possibly missing. -/
structure RawEvent where
  source_ip : Option Val
  ip : Option Val
  event : Option Val
  deriving DecidableEq, Repr

/-- `r.get('source_ip') or r.get('ip') or 'unknown'`: the actor identifier
of an event. -/
def resolveActor (r : RawEvent) : Val :=
  pyOr (getv r.source_ip) (pyOr (getv r.ip) (Val.vstr "unknown"))

/-- `r.get('event') == 'failed_login'`. -/
def isFailedLogin (r : RawEvent) : Bool :=
  getv r.event = Val.vstr "failed_login"

/-- One per-actor aggregated record `{'ip': ip, 'failed_logins': n,
'requests': m}` built by the aggregation loop. -/
structure AggRecord where
  ip : Val
  failed_logins : Nat
  requests : Nat
  deriving DecidableEq, Repr

/-- The two increments the loop applies to an entry for one event:
`requests += 1` always, `failed_logins += 1` iff the event is a failed
login. -/
def bumpRecord (rec : AggRecord) (failed : Bool) : AggRecord :=
  { rec with
    failed_logins := rec.failed_logins + (if failed then 1 else 0),
    requests := rec.requests + 1 }

/-- One iteration of the aggregation loop: `agg.setdefault(ip, fresh)` then
increment.  The insertion-ordered Python dict keyed by `ip` is modelled as a
list of records in insertion order (each entry's `ip` field is its key). -/
def updateAgg (acc : List AggRecord) (e : RawEvent) : List AggRecord :=
  let k := resolveActor e
  let f := isFailedLogin e
  if acc.any (fun rec => rec.ip = k) then
    acc.map (fun rec => if rec.ip = k then bumpRecord rec f else rec)
  else
    acc ++ [bumpRecord { ip := k, failed_logins := 0, requests := 0 } f]

/-- The whole aggregation loop followed by `list(agg.values())`. -/
def aggregate (events : List RawEvent) : List AggRecord :=
  events.foldl updateAgg []

/-! ## Specification-side definitions

These follow the wording of the spec, for the refinement claims; the code
embeddings above are compared against them. -/

/-- Modelled from the spec: the distinct actor identifiers of an event
sequence in first-seen order. -/
def actorsInOrder (events : List RawEvent) : List Val :=
  events.foldl
    (fun acc e => if resolveActor e ∈ acc then acc else acc ++ [resolveActor e]) []

/-- Modelled from the spec (§4.1): one aggregated record per distinct actor
identifier in first-seen order; `requests` counts all events of the actor
and `failed_logins` counts its events whose kind field equals
`"failed_login"`. -/
def specRecord (events : List RawEvent) (k : Val) : AggRecord :=
  { ip := k
    failed_logins :=
      (events.filter (fun e => decide (resolveActor e = k) && isFailedLogin e)).length
    requests := (events.filter (fun e => decide (resolveActor e = k))).length }

/-- Modelled from the spec (§4.1 continued): the full aggregated output, one
`specRecord` per actor in first-seen order. -/
def aggregateSpec (events : List RawEvent) : List AggRecord :=
  (actorsInOrder events).map (specRecord events)

/-- The three-event input of the spec's aggregator example. -/
def exampleEvents : List RawEvent :=
  [ { source_ip := none, ip := some (Val.vstr "1.1.1.1"),
      event := some (Val.vstr "failed_login") },
    { source_ip := none, ip := some (Val.vstr "1.1.1.1"),
      event := some (Val.vstr "login") },
    { source_ip := none, ip := some (Val.vstr "2.2.2.2"),
      event := some (Val.vstr "login") } ]

/-- Population mean of a column, per the spec's wording. -/
def popMeanQ (l : List ℚ) : ℚ :=
  l.sum / (l.length : ℚ)

/-- Population variance of a column (division by `n`, not `n - 1`), per the
spec's wording. -/
def popVarQ (l : List ℚ) : ℚ :=
  (l.map (fun v => (v - popMeanQ l) ^ 2)).sum / (l.length : ℚ)

/-- Modelled from the spec (§4.3, HeuristicStrategy steps 1-3): the real
z-score `|value - mean| / std` strictly exceeds `n_sigma`, where `std` is
the population standard deviation with `1e-8` substituted when it is exactly
zero. -/
def specFeatAnomalous (nsig x : ℚ) (col : List ℚ) : Prop :=
  let std : ℝ :=
    if Real.sqrt (popVarQ col : ℝ) = 0 then (1e-8 : ℝ)
    else Real.sqrt (popVarQ col : ℝ)
  |(x : ℝ) - (popMeanQ col : ℝ)| / std > (nsig : ℝ)

/-- Modelled from the spec: a row of the batch is anomalous iff at least one
of its two features is anomalous — a per-feature OR. -/
def specRowAnomalous (nsig : ℚ) (rows : List (ℚ × ℚ)) (p : ℚ × ℚ) : Prop :=
  specFeatAnomalous nsig p.1 (rows.map Prod.fst) ∨
    specFeatAnomalous nsig p.2 (rows.map Prod.snd)

/-- A record with a present, large `failed_logins` (for the missing-value
counterexample batch). -/
def recordA : AggDict :=
  { ip := some (Val.vstr "A"), failed_logins := some (Val.vint 100),
    requests := some (Val.vint 10) }

/-- A record whose `failed_logins` key is MISSING (not `None`): feature
extraction substitutes the default `0`. -/
def recordJ : AggDict :=
  { ip := some (Val.vstr "J"), failed_logins := none,
    requests := some (Val.vint 10) }

/-- Ten `recordA` followed by `recordJ`: in this batch the z-score of the
substituted `0` is `sqrt 10 > 3`. -/
def recsMissing : List AggDict :=
  [recordA, recordA, recordA, recordA, recordA, recordA, recordA, recordA,
    recordA, recordA, recordJ]

/-- A `failed_logins` field value that the RuleEngine's coercion sends to
`0`: missing, `None`, the literal string `"unknown"`, or a string `int()`
cannot parse. -/
def badFailedLogins (v : Option Val) : Prop :=
  v = none ∨ v = some Val.vnone ∨ v = some (Val.vstr "unknown") ∨
    ∃ s, v = some (Val.vstr s) ∧ pyIntOfString s = none

/-! ## Theorems -/

theorem aggregate_append_singleton (es : List RawEvent) (e : RawEvent) :
    aggregate (es ++ [e]) = updateAgg (aggregate es) e := by
  simp [aggregate, List.foldl_append]

theorem actorsInOrder_append_singleton (es : List RawEvent) (e : RawEvent) :
    actorsInOrder (es ++ [e]) =
      if resolveActor e ∈ actorsInOrder es then actorsInOrder es
      else actorsInOrder es ++ [resolveActor e] := by
  simp [actorsInOrder, List.foldl_append]

theorem mem_actorsInOrder (k : Val) (events : List RawEvent) :
    k ∈ actorsInOrder events ↔ ∃ e ∈ events, resolveActor e = k := by
  induction events using List.reverseRecOn generalizing k with
  | nil => simp [actorsInOrder]
  | append_singleton es e ih =>
    rw [actorsInOrder_append_singleton]
    by_cases hk : resolveActor e ∈ actorsInOrder es
    · rw [if_pos hk, ih]
      constructor
      · rintro ⟨e', he', hres⟩
        exact ⟨e', List.mem_append.mpr (Or.inl he'), hres⟩
      · rintro ⟨e', he', hres⟩
        rcases List.mem_append.mp he' with h | h
        · exact ⟨e', h, hres⟩
        · have he : e' = e := List.mem_singleton.mp h
          subst he
          obtain ⟨e'', he'', hres''⟩ := (ih (resolveActor e')).mp hk
          exact ⟨e'', he'', by rw [hres'', hres]⟩
    · rw [if_neg hk]
      constructor
      · intro hmem
        rcases List.mem_append.mp hmem with h | h
        · obtain ⟨e', he', hres⟩ := (ih k).mp h
          exact ⟨e', List.mem_append.mpr (Or.inl he'), hres⟩
        · have hke : k = resolveActor e := List.mem_singleton.mp h
          exact ⟨e, List.mem_append.mpr (Or.inr (List.mem_singleton.mpr rfl)),
            hke.symm⟩
      · rintro ⟨e', he', hres⟩
        rcases List.mem_append.mp he' with h | h
        · exact List.mem_append.mpr (Or.inl ((ih k).mpr ⟨e', h, hres⟩))
        · have he : e' = e := List.mem_singleton.mp h
          subst he
          exact List.mem_append.mpr (Or.inr (List.mem_singleton.mpr hres.symm))

theorem filter_length_append_singleton (p : RawEvent → Bool) (es : List RawEvent)
    (e : RawEvent) :
    (List.filter p (es ++ [e])).length =
      (List.filter p es).length + (if p e then 1 else 0) := by
  cases hp : p e <;> simp [List.filter_append, List.filter, hp]

theorem specRecord_append_ne (es : List RawEvent) (e : RawEvent) (k : Val)
    (hne : resolveActor e ≠ k) :
    specRecord (es ++ [e]) k = specRecord es k := by
  have h1 : (decide (resolveActor e = k) && isFailedLogin e) = false := by
    simp [hne]
  have h2 : decide (resolveActor e = k) = false := by
    simp [hne]
  simp [specRecord, filter_length_append_singleton, h1, h2]

theorem specRecord_append_eq (es : List RawEvent) (e : RawEvent) :
    specRecord (es ++ [e]) (resolveActor e) =
      bumpRecord (specRecord es (resolveActor e)) (isFailedLogin e) := by
  cases hf : isFailedLogin e <;>
    simp [specRecord, bumpRecord, filter_length_append_singleton, hf]

theorem specRecord_fresh (es : List RawEvent) (k : Val)
    (h : ∀ e ∈ es, resolveActor e ≠ k) :
    specRecord es k = { ip := k, failed_logins := 0, requests := 0 } := by
  have hzero : es.filter (fun e => decide (resolveActor e = k)) = [] := by
    rw [List.filter_eq_nil_iff]
    intro e he
    simp [h e he]
  have hzero2 :
      es.filter (fun e => decide (resolveActor e = k) && isFailedLogin e) = [] := by
    rw [List.filter_eq_nil_iff]
    intro e he
    simp [h e he]
  simp [specRecord, hzero, hzero2]

/-- Filtering on a conjunction keeps at most as many elements. -/
theorem filter_and_length_le (p q : RawEvent → Bool) (l : List RawEvent) :
    (l.filter (fun e => p e && q e)).length ≤ (l.filter p).length := by
  induction l with
  | nil => simp
  | cons a l ih =>
    cases hp : p a <;> cases hq : q a <;>
      simp [List.filter, hp, hq] <;> omega

/-- The aggregation loop computes exactly the spec's per-actor counts, one
record per distinct actor identifier, in first-seen order. -/
theorem aggregate_eq_spec (events : List RawEvent) :
    aggregate events = aggregateSpec events := by
  induction events using List.reverseRecOn with
  | nil => rfl
  | append_singleton es e ih =>
    rw [aggregate_append_singleton, ih]
    by_cases hk : resolveActor e ∈ actorsInOrder es
    · -- the actor already has an entry: the loop bumps it in place
      have hcond :
          ((aggregateSpec es).any fun rec => rec.ip = resolveActor e) = true := by
        rw [List.any_eq_true]
        refine ⟨specRecord es (resolveActor e), ?_, ?_⟩
        · exact List.mem_map.mpr ⟨resolveActor e, hk, rfl⟩
        · simp [specRecord]
      have hact : actorsInOrder (es ++ [e]) = actorsInOrder es := by
        rw [actorsInOrder_append_singleton, if_pos hk]
      simp only [updateAgg, hcond, if_true]
      conv_rhs => rw [aggregateSpec, hact]
      conv_lhs => rw [aggregateSpec, List.map_map]
      refine List.map_congr_left fun k hkmem => ?_
      simp only [Function.comp_apply]
      by_cases hkk : k = resolveActor e
      · subst hkk
        rw [if_pos (show (specRecord es (resolveActor e)).ip = resolveActor e from rfl),
          specRecord_append_eq]
      · rw [if_neg (by simpa [specRecord] using hkk),
          specRecord_append_ne es e k (fun h => hkk h.symm)]
    · -- first event of this actor: the loop appends a fresh entry
      have hcond :
          ((aggregateSpec es).any fun rec => rec.ip = resolveActor e) = false := by
        rw [List.any_eq_false]
        intro rec hrec
        obtain ⟨k, hkmem, rfl⟩ := List.mem_map.mp hrec
        simp only [specRecord, decide_eq_true_eq]
        intro hkk
        exact hk (hkk ▸ hkmem)
      have hact : actorsInOrder (es ++ [e]) =
          actorsInOrder es ++ [resolveActor e] := by
        rw [actorsInOrder_append_singleton, if_neg hk]
      have hnone : ∀ e' ∈ es, resolveActor e' ≠ resolveActor e := by
        intro e' he' hres
        exact hk ((mem_actorsInOrder _ _).mpr ⟨e', he', hres⟩)
      simp only [updateAgg, hcond, Bool.false_eq_true, if_false]
      conv_rhs => rw [aggregateSpec, hact, List.map_append]
      conv_lhs => rw [aggregateSpec]
      congr 1
      · refine List.map_congr_left fun k hkmem => ?_
        exact (specRecord_append_ne es e k (fun h => hk (h ▸ hkmem))).symm
      · rw [List.map_singleton, specRecord_append_eq,
          specRecord_fresh es (resolveActor e) hnone]

theorem check_rules_append (df₁ df₂ : List AggDict) :
    check_rules (df₁ ++ df₂) = check_rules df₁ ++ check_rules df₂ := by
  induction df₁ with
  | nil => rfl
  | cons row rest ih =>
    simp only [List.cons_append, check_rules]
    cases ruleAlertOf row <;> simp [ih]

/-- C3: `RuleEngine.check_rules` emits, in input order, exactly one
`{type := "Brute Force", ip := actor, failed_logins := n}` alert per record
whose coerced `failed_logins` strictly exceeds 5, and nothing for the
records at or below 5. -/
theorem check_rules_spec (df : List AggDict) :
    check_rules df =
      (df.filter (fun r => 5 < coerceFailedLogins (getv r.failed_logins))).map
        (fun r =>
          { type := "Brute Force", ip := getv r.ip,
            failed_logins := coerceFailedLogins (getv r.failed_logins) }) := by
  induction df with
  | nil => rfl
  | cons row rest ih =>
    by_cases h : 5 < coerceFailedLogins (getv row.failed_logins) <;>
      simp [check_rules, ruleAlertOf, h, ih]

/-- C6: a record whose `failed_logins` is missing, `None`, `"unknown"` or a
non-coercible string is coerced to `0` and never contributes a brute-force
alert, wherever it sits in the input; the surrounding records are unaffected
(the embedding of `check_rules` is a total function: the only raising
operation, `int(...)`, is wrapped in the modelled `try`/`except`). -/
theorem check_rules_coercion (row : AggDict)
    (hbad : badFailedLogins row.failed_logins) :
    coerceFailedLogins (getv row.failed_logins) = 0 ∧
      ∀ df₁ df₂ : List AggDict,
        check_rules (df₁ ++ row :: df₂) = check_rules (df₁ ++ df₂) := by
  have hz : coerceFailedLogins (getv row.failed_logins) = 0 := by
    rcases hbad with h | h | h | ⟨s, hs, hparse⟩
    · simp [h, getv, coerceFailedLogins]
    · simp [h, getv, coerceFailedLogins]
    · simp [h, getv, coerceFailedLogins]
    · by_cases hu : s = "unknown" <;>
        simp [hs, getv, coerceFailedLogins, hu, hparse]
  refine ⟨hz, fun df₁ df₂ => ?_⟩
  have halert : ruleAlertOf row = none := by
    simp [ruleAlertOf, hz]
  simp [check_rules_append, check_rules, halert]

/-- Witness for C6 at `failed_logins = "unknown"`. -/
theorem check_rules_coercion_witness :
    badFailedLogins (some (Val.vstr "unknown")) ∧
      (coerceFailedLogins (getv (some (Val.vstr "unknown"))) = 0 ∧
        ∀ df₁ df₂ : List AggDict,
          check_rules
              (df₁ ++ { ip := some (Val.vstr "b"),
                        failed_logins := some (Val.vstr "unknown"),
                        requests := none } :: df₂) =
            check_rules (df₁ ++ df₂)) :=
  ⟨Or.inr (Or.inr (Or.inl rfl)),
    check_rules_coercion
      { ip := some (Val.vstr "b"), failed_logins := some (Val.vstr "unknown"),
        requests := none }
      (Or.inr (Or.inr (Or.inl rfl)))⟩

/-- C4: the aggregation loop produces one record per distinct actor
identifier in first-seen order — actor resolved as `source_ip`, else `ip`,
else `"unknown"`; `requests` counts every event of the actor and
`failed_logins` counts those whose kind field equals `"failed_login"` — and
on the spec's three-event example it yields exactly the two expected
records. -/
theorem aggregate_matches_spec :
    (∀ events : List RawEvent, aggregate events = aggregateSpec events) ∧
      aggregate exampleEvents =
        [ { ip := Val.vstr "1.1.1.1", failed_logins := 1, requests := 2 },
          { ip := Val.vstr "2.2.2.2", failed_logins := 0, requests := 1 } ] :=
  ⟨aggregate_eq_spec, by decide⟩

/-- C5: every aggregated record satisfies `failed_logins ≤ requests` (both
counters are `Nat`, hence non-negative), for every input sequence. -/
theorem aggregate_invariant (events : List RawEvent) (r : AggRecord)
    (hr : r ∈ aggregate events) : r.failed_logins ≤ r.requests := by
  rw [aggregate_eq_spec] at hr
  obtain ⟨k, hkmem, rfl⟩ := List.mem_map.mp hr
  exact filter_and_length_le (fun e => decide (resolveActor e = k)) isFailedLogin
    events

/-- Witness for C5 on the spec's example events. -/
theorem aggregate_invariant_witness :
    ({ ip := Val.vstr "1.1.1.1", failed_logins := 1, requests := 2 } : AggRecord) ∈
        aggregate exampleEvents ∧
      ({ ip := Val.vstr "1.1.1.1", failed_logins := 1, requests := 2 } :
          AggRecord).failed_logins ≤
        ({ ip := Val.vstr "1.1.1.1", failed_logins := 1, requests := 2 } :
          AggRecord).requests :=
  ⟨by decide, aggregate_invariant exampleEvents _ (by decide)⟩

theorem popVarQ_nonneg (l : List ℚ) : 0 ≤ popVarQ l := by
  apply div_nonneg
  · apply List.sum_nonneg
    intro x hx
    obtain ⟨v, hv, rfl⟩ := List.mem_map.mp hx
    positivity
  · positivity

theorem colStats_map_some (l : List ℚ) :
    colStats (l.map some) = (popMeanQ l, popVarQ l) := by
  have hid : (optVal ∘ some : ℚ → ℚ) = id := funext fun v => rfl
  simp [colStats, popMeanQ, popVarQ, List.map_map, hid]

theorem heuristic_mask_length (nsig : ℚ) (rows : List FeatRow) :
    (heuristic_mask nsig rows).length = rows.length := by
  by_cases h : rows = [] <;> simp [heuristic_mask, h]

theorem heuristic_mask_getD (nsig : ℚ) (rows : List FeatRow) (i : Nat)
    (h : i < rows.length) :
    (heuristic_mask nsig rows).getD i false =
      (featExceeds (rows.getD i (none, none)).1
          (colStats (rows.map Prod.fst)) nsig ||
        featExceeds (rows.getD i (none, none)).2
          (colStats (rows.map Prod.snd)) nsig) := by
  have hne : rows ≠ [] :=
    List.ne_nil_of_length_pos (Nat.lt_of_le_of_lt (Nat.zero_le _) h)
  simp only [heuristic_mask, if_neg hne]
  have hlen : i < (rows.map fun r =>
      featExceeds r.1 (colStats (rows.map Prod.fst)) nsig ||
        featExceeds r.2 (colStats (rows.map Prod.snd)) nsig).length := by
    simpa using h
  rw [List.getD_eq_getElem _ _ hlen, List.getElem_map,
    List.getD_eq_getElem _ _ h]

/-- The square-free embedded comparison agrees with the real-valued z-score
comparison of the source (`abs((v - mean) / std) > n_sigma` with
`std = sqrt(var)` and the `1e-8` substitution for a zero standard
deviation). -/
theorem zExceeds_iff_real (v mean var nsig : ℚ) (hvar : 0 ≤ var) :
    zExceeds v mean var nsig = true ↔
      |(v : ℝ) - (mean : ℝ)| /
          (if Real.sqrt ((var : ℝ)) = 0 then (1e-8 : ℝ)
            else Real.sqrt ((var : ℝ))) >
        (nsig : ℝ) := by
  by_cases hv : var = 0
  · have hs : Real.sqrt ((var : ℝ)) = 0 := by
      rw [hv]
      simp
    rw [zExceeds, if_pos hv, if_pos hs]
    simp only [decide_eq_true_eq, gt_iff_lt]
    rw [show (1e-8 : ℝ) = ((1e-8 : ℚ) : ℝ) from by norm_num]
    constructor <;> intro hlt <;> exact_mod_cast hlt
  · have hvpos : 0 < var := lt_of_le_of_ne hvar (Ne.symm hv)
    have hspos : 0 < Real.sqrt ((var : ℝ)) :=
      Real.sqrt_pos.mpr (by exact_mod_cast hvpos)
    rw [zExceeds, if_neg hv, if_neg (ne_of_gt hspos)]
    by_cases hn : nsig < 0
    · rw [if_pos hn]
      constructor
      · intro _
        have h1 : (nsig : ℝ) < 0 := by exact_mod_cast hn
        have h2 : 0 ≤ |(v : ℝ) - (mean : ℝ)| / Real.sqrt ((var : ℝ)) :=
          div_nonneg (abs_nonneg _) (le_of_lt hspos)
        exact lt_of_lt_of_le h1 h2
      · intro _
        rfl
    · rw [if_neg hn]
      have hn' : 0 ≤ nsig := not_lt.mp hn
      simp only [decide_eq_true_eq, gt_iff_lt]
      rw [lt_div_iff₀ hspos]
      have hnn : 0 ≤ (nsig : ℝ) * Real.sqrt ((var : ℝ)) :=
        mul_nonneg (by exact_mod_cast hn') (le_of_lt hspos)
      rw [← pow_lt_pow_iff_left₀ hnn (abs_nonneg _) (by norm_num : (2 : ℕ) ≠ 0)]
      rw [mul_pow, sq_abs, Real.sq_sqrt (by exact_mod_cast hvar)]
      constructor <;> intro hlt <;> exact_mod_cast hlt

/-- C1: for a non-empty batch of fully-present feature rows, the heuristic
marks row `i` anomalous exactly when at least one of the two features has
`|value - mean| / std > n_sigma` with population mean and population
standard deviation (epsilon `1e-8` substituted for a zero standard
deviation) — a per-feature OR. -/
theorem heuristic_reference (nsig : ℚ) (rows : List (ℚ × ℚ)) (i : Nat)
    (h : i < rows.length) :
    ((heuristic_mask nsig
          (rows.map (fun p => (some p.1, some p.2)))).getD i false = true) ↔
      specRowAnomalous nsig rows (rows.getD i (0, 0)) := by
  have h2 : i < (rows.map
      (fun p => ((some p.1 : Option ℚ), (some p.2 : Option ℚ)))).length := by
    simpa using h
  rw [heuristic_mask_getD nsig _ i h2]
  have hfst : (rows.map
        (fun p => ((some p.1 : Option ℚ), (some p.2 : Option ℚ)))).map Prod.fst =
      (rows.map Prod.fst).map some := by
    simp [List.map_map, Function.comp]
  have hsnd : (rows.map
        (fun p => ((some p.1 : Option ℚ), (some p.2 : Option ℚ)))).map Prod.snd =
      (rows.map Prod.snd).map some := by
    simp [List.map_map, Function.comp]
  have hrow : (rows.map
        (fun p => ((some p.1 : Option ℚ), (some p.2 : Option ℚ)))).getD i
          (none, none) =
      (some (rows.getD i (0, 0)).1, some (rows.getD i (0, 0)).2) := by
    rw [List.getD_eq_getElem _ _ h2, List.getElem_map,
      List.getD_eq_getElem _ _ h]
  rw [hfst, hsnd, colStats_map_some, colStats_map_some, hrow]
  simp only [featExceeds, specRowAnomalous, specFeatAnomalous, Bool.or_eq_true]
  refine or_congr ?_ ?_
  · exact zExceeds_iff_real _ _ _ _ (popVarQ_nonneg _)
  · exact zExceeds_iff_real _ _ _ _ (popVarQ_nonneg _)

/-- Witness for C1 on the two-row batch `[(1, 10), (100, 10)]` at row 0. -/
theorem heuristic_reference_witness :
    0 < ([((1 : ℚ), (10 : ℚ)), ((100 : ℚ), (10 : ℚ))] : List (ℚ × ℚ)).length ∧
      (((heuristic_mask 3
            (([((1 : ℚ), (10 : ℚ)), ((100 : ℚ), (10 : ℚ))] :
                List (ℚ × ℚ)).map (fun p => (some p.1, some p.2)))).getD 0
            false = true) ↔
        specRowAnomalous 3
          [((1 : ℚ), (10 : ℚ)), ((100 : ℚ), (10 : ℚ))]
          (([((1 : ℚ), (10 : ℚ)), ((100 : ℚ), (10 : ℚ))] :
              List (ℚ × ℚ)).getD 0 (0, 0))) :=
  ⟨by decide, heuristic_reference 3 _ 0 (by decide)⟩

theorem maskSelect_sublist (records : List AggDict) (mask : List Bool) :
    List.Sublist (maskSelect records mask) records := by
  induction records generalizing mask with
  | nil => simp [maskSelect]
  | cons r rs ih =>
    cases mask with
    | nil => simp [maskSelect]
    | cons b bs =>
      have hstep : maskSelect (r :: rs) (b :: bs) =
          if b then r :: maskSelect rs bs else maskSelect rs bs := by
        cases b <;> simp [maskSelect]
      rw [hstep]
      cases b
      · exact (ih bs).cons r
      · exact (ih bs).cons₂ r

theorem featuresOf_eq_map (records : List AggDict) (features : List FeatRow)
    (hf : featuresOf records = some features) :
    features = records.map extractFeat := by
  induction records generalizing features with
  | nil =>
    simp only [featuresOf, Option.some_inj] at hf
    simp [← hf]
  | cons r rs ih =>
    simp only [featuresOf, Option.bind_eq_some, Option.map_eq_some'] at hf
    obtain ⟨a, ha, b, hb, rest, hrest, hcons⟩ := hf
    subst hcons
    simp [extractFeat, ha, hb, ih rest hrest]

/-- C7: on a feature-extractable input, `detect` returns exactly the
original input records (not feature vectors) at the positions where the
strategy's boolean mask is true, in input order — the output is a sublist of
the input — and row `i` of the feature matrix is the extraction of record
`i` (`features = records.map extractFeat`). -/
theorem detect_mask_mapping (nsig : ℚ) (records : List AggDict)
    (features : List FeatRow) (hf : featuresOf records = some features) :
    detect nsig records =
        some (maskSelect records (heuristic_mask nsig features)) ∧
      List.Sublist (maskSelect records (heuristic_mask nsig features)) records ∧
      features = records.map extractFeat := by
  refine ⟨?_, maskSelect_sublist _ _, featuresOf_eq_map _ _ hf⟩
  simp [detect, detectWith, hf]

/-- Witness for C7 on a one-record input. -/
theorem detect_mask_mapping_witness :
    featuresOf
          [ { ip := some (Val.vstr "a"), failed_logins := some (Val.vint 1),
              requests := some (Val.vint 2) } ] =
        some [((some 1 : Option ℚ), (some 2 : Option ℚ))] ∧
      (detect 3
            [ { ip := some (Val.vstr "a"), failed_logins := some (Val.vint 1),
                requests := some (Val.vint 2) } ] =
          some (maskSelect
            [ { ip := some (Val.vstr "a"), failed_logins := some (Val.vint 1),
                requests := some (Val.vint 2) } ]
            (heuristic_mask 3 [((some 1 : Option ℚ), (some 2 : Option ℚ))])) ∧
        List.Sublist
          (maskSelect
            [ { ip := some (Val.vstr "a"), failed_logins := some (Val.vint 1),
                requests := some (Val.vint 2) } ]
            (heuristic_mask 3 [((some 1 : Option ℚ), (some 2 : Option ℚ))]))
          [ { ip := some (Val.vstr "a"), failed_logins := some (Val.vint 1),
              requests := some (Val.vint 2) } ] ∧
        [((some 1 : Option ℚ), (some 2 : Option ℚ))] =
          [ { ip := some (Val.vstr "a"), failed_logins := some (Val.vint 1),
              requests := some (Val.vint 2) } ].map extractFeat) :=
  ⟨by decide, detect_mask_mapping 3 _ _ (by decide)⟩

/-- C8 counterexample: a record whose `failed_logins` key is missing is not
skipped — feature extraction substitutes the default `0`
(`r.get("failed_logins", 0)`), which counts toward the z-score check: among
fifteen records with `failed_logins = 100`, the record with the missing
field is flagged (z-score `sqrt 15 > 3`) and returned. -/
theorem missing_value_flagged :
    detect 3 recsMissing = some [recordJ] := by
  have hfeat : featuresOf recsMissing =
      some [(some 100, some 10), (some 100, some 10), (some 100, some 10),
        (some 100, some 10), (some 100, some 10), (some 100, some 10),
        (some 100, some 10), (some 100, some 10), (some 100, some 10),
        (some 100, some 10), (some 0, some 10)] := by
    norm_num [recsMissing, recordA, recordJ, featuresOf, getFeat]
  have hmask : heuristic_mask 3
      [((some 100 : Option ℚ), (some 10 : Option ℚ)), (some 100, some 10),
        (some 100, some 10), (some 100, some 10), (some 100, some 10),
        (some 100, some 10), (some 100, some 10), (some 100, some 10),
        (some 100, some 10), (some 100, some 10), (some 0, some 10)] =
      [false, false, false, false, false, false, false, false, false, false,
        true] := by
    norm_num [heuristic_mask, colStats, optVal, featExceeds, zExceeds]
    intro h
    simp at h
  simp only [detect, detectWith, hfeat, hmask]
  norm_num [maskSelect, recsMissing, recordA, recordJ, List.zip, List.zipWith,
    List.filterMap]

/-- C8 (amended): a stored `None` feature value is skipped by the
heuristic's row check — it never contributes to the per-feature OR, and a
row whose features are both `None` is never flagged; a missing field, by
contrast, is substituted by the default `0` at feature extraction
(`getFeat none = some (some 0)`) and does count toward the check. -/
theorem none_features_skipped (nsig : ℚ) (rows : List FeatRow) (i : Nat)
    (h : i < rows.length) :
    ((rows.getD i (none, none)).1 = none →
        (heuristic_mask nsig rows).getD i false =
          featExceeds (rows.getD i (none, none)).2
            (colStats (rows.map Prod.snd)) nsig) ∧
      (rows.getD i (none, none) = (none, none) →
        (heuristic_mask nsig rows).getD i false = false) ∧
      getFeat none = some (some 0) := by
  have hmask := heuristic_mask_getD nsig rows i h
  refine ⟨?_, ?_, rfl⟩
  · intro h1
    rw [hmask, h1]
    simp [featExceeds]
  · intro h1
    rw [hmask, h1]
    simp [featExceeds]

/-- Witness for C8 (amended) on the one-row batch `[(None, None)]`. -/
theorem none_features_skipped_witness :
    0 < ([((none : Option ℚ), (none : Option ℚ))] : List FeatRow).length ∧
      (((([((none : Option ℚ), (none : Option ℚ))] : List FeatRow).getD 0
              (none, none)).1 = none →
          (heuristic_mask 3
              ([((none : Option ℚ), (none : Option ℚ))] : List FeatRow)).getD 0
              false =
            featExceeds
              ((([((none : Option ℚ), (none : Option ℚ))] :
                  List FeatRow).getD 0 (none, none)).2)
              (colStats
                (([((none : Option ℚ), (none : Option ℚ))] :
                    List FeatRow).map Prod.snd)) 3) ∧
        (([((none : Option ℚ), (none : Option ℚ))] : List FeatRow).getD 0
              (none, none) = (none, none) →
          (heuristic_mask 3
              ([((none : Option ℚ), (none : Option ℚ))] : List FeatRow)).getD 0
              false = false) ∧
        getFeat none = some (some 0)) :=
  ⟨by decide, none_features_skipped 3 [(none, none)] 0 (by decide)⟩

/-- C9 counterexample: construction with a negative `n_sigma` (and with a
`contamination` outside `(0,1)`) succeeds — `__init__` stores the values
unvalidated, and the constructed detector runs normally. -/
theorem init_accepts_invalid_config :
    AnomalyDetector.init (1 / 10) (-1) =
        { contamination := 1 / 10, n_sigma := -1 } ∧
      (AnomalyDetector.init (1 / 10) (-1)).run [] = some [] ∧
      AnomalyDetector.init 2 3 = { contamination := 2, n_sigma := 3 } :=
  ⟨rfl, rfl, rfl⟩

/-- C9 (amended): `__init__` performs no validation: every
`(contamination, n_sigma)` pair — including negative `n_sigma` and
`contamination` outside `(0,1)` — is silently accepted and stored unchanged,
never rejected and never clamped. -/
theorem init_stores_unvalidated (contamination n_sigma : ℚ) :
    AnomalyDetector.init contamination n_sigma =
      { contamination := contamination, n_sigma := n_sigma } :=
  rfl

/-- C10: when the model strategy raises during fit/predict
(`m features = none`), `detect` catches it and recomputes the mask with the
heuristic strategy on the same feature matrix: the call completes normally
and returns exactly what the heuristic-only detector returns. -/
theorem model_failure_falls_back (m : List FeatRow → Option (List Bool))
    (nsig : ℚ) (records : List AggDict) (features : List FeatRow)
    (hf : featuresOf records = some features) (hm : m features = none) :
    detectWith (some m) nsig records =
        some (maskSelect records (heuristic_mask nsig features)) ∧
      detectWith (some m) nsig records = detectWith none nsig records := by
  constructor <;> simp [detectWith, hf, hm]

/-- Witness for C10 with an always-raising model on the empty batch. -/
theorem model_failure_falls_back_witness :
    featuresOf [] = some [] ∧
      (fun _ : List FeatRow => (none : Option (List Bool))) [] = none ∧
      (detectWith (some fun _ => none) 3 [] =
          some (maskSelect [] (heuristic_mask 3 [])) ∧
        detectWith (some fun _ => none) 3 [] = detectWith none 3 []) :=
  ⟨rfl, rfl, model_failure_falls_back _ 3 [] [] rfl rfl⟩
